import Mathlib

/-!
Shallow embedding of the teacher-scheduling cost model
(`TeacherSchedulingProblem` in `src/teachers.py`) and proofs of the
specification's claims about it.

A schedule is a flat list of integers (Python list values flow as plain
ints; binary-ness is a property, not a type).  The fallible `get_cost`
(which raises `ValueError` on a length mismatch) is modelled with
`Option`.  All constants are the ones fixed in the class constructor;
the hard-constraint penalty is the single constructor parameter and is
kept as a parameter here.
-/

namespace TSP

/-- The fixed list of teachers `['A', ..., 'H']`; only its length and
order matter to the arithmetic. -/
def teachers : List String := ["A", "B", "C", "D", "E", "F", "G", "H"]

/-- Per-teacher shift preferences (morning, evening, night), as in
`self.shift_preference`. -/
def shift_preference : List (List Int) :=
  [[1, 0, 0], [1, 1, 0], [0, 0, 1], [0, 1, 0], [0, 0, 1], [1, 1, 1], [0, 1, 1], [1, 1, 1]]

/-- `self.shift_min`: minimum teachers per shift type. -/
def shift_min : List Int := [2, 2, 1]

/-- `self.shift_max`: maximum teachers per shift type. -/
def shift_max : List Int := [3, 4, 2]

/-- `self.max_shifts_per_week`. -/
def max_shifts_per_week : Int := 5

/-- `self.weeks`. -/
def weeks : Nat := 1

/-- `self.shift_per_day = len(self.shift_min)`. -/
def shift_per_day : Nat := shift_min.length

/-- `self.shifts_per_week = 7 * self.shift_per_day`. -/
def shifts_per_week : Nat := 7 * shift_per_day

/-- `__len__`: `len(self.teachers) * self.shifts_per_week * self.weeks`. -/
def schedLength : Nat := teachers.length * shifts_per_week * weeks

/-- `shifts_per_teacher = self.__len__() // len(self.teachers)` inside
`get_teacher_shifts`. -/
def shifts_per_teacher : Nat := schedLength / teachers.length

/-- `get_teacher_shifts`: slice the flat schedule into one contiguous
sub-list per teacher, in teacher order (the Python dict keeps insertion
order, so a list of slices is a faithful model). -/
def get_teacher_shifts (schedule : List Int) : List (List Int) :=
  (List.range teachers.length).map fun k =>
    (schedule.drop (k * shifts_per_teacher)).take shifts_per_teacher

/-- The inner loop of `count_consecutive_shift_violations`:
`for shift1, shift2 in zip(ts, ts[1:]): if shift1 == 1 and shift2 == 1`. -/
def consecutivePairs : List Int → Int
  | a :: b :: rest => (if a = 1 ∧ b = 1 then 1 else 0) + consecutivePairs (b :: rest)
  | _ => 0

/-- `count_consecutive_shift_violations`. -/
def count_consecutive_shift_violations (d : List (List Int)) : Int :=
  (d.map consecutivePairs).sum

/-- The weekly windows of one teacher's sequence:
`range(0, weeks * shifts_per_week, shifts_per_week)` with slices
`teacher_shifts[i : i + shifts_per_week]`. -/
def weeklyWindows (ts : List Int) : List (List Int) :=
  (List.range weeks).map fun w => (ts.drop (w * shifts_per_week)).take shifts_per_week

/-- `count_shifts_per_week_violations`: returns the list of weekly sums
and the violation total. -/
def count_shifts_per_week_violations (d : List (List Int)) : List Int × Int :=
  let weekly_shifts_list := d.flatMap fun ts => (weeklyWindows ts).map List.sum
  let violations := (weekly_shifts_list.map fun s =>
    if s > max_shifts_per_week then s - max_shifts_per_week else 0).sum
  (weekly_shifts_list, violations)

/-- The length of Python's `zip(*lists)`: the minimum of the lengths. -/
def zipMinLen : List (List Int) → Nat
  | [] => 0
  | [l] => l.length
  | l :: l' :: rest => min l.length (zipMinLen (l' :: rest))

/-- `total_per_shift_list = [sum(shift) for shift in zip(*dict.values())]`:
at each position covered by every teacher, the headcount across teachers. -/
def total_per_shift_list (d : List (List Int)) : List Int :=
  (List.range (zipMinLen d)).map fun p => (d.map fun ts => ts.getD p 0).sum

/-- `count_teachers_per_shift_violations`: returns the per-position
headcounts and the violation total. -/
def count_teachers_per_shift_violations (d : List (List Int)) : List Int × Int :=
  let total := total_per_shift_list d
  let violations := (total.enum.map fun pn =>
    let j := pn.1 % shift_per_day
    if pn.2 > shift_max.getD j 0 then pn.2 - shift_max.getD j 0
    else if pn.2 < shift_min.getD j 0 then shift_min.getD j 0 - pn.2
    else 0).sum
  (total, violations)

/-- Python list repetition `pat * n`. -/
def tile (pat : List Int) (n : Nat) : List Int :=
  (List.replicate n pat).flatten

/-- `count_shift_preference_violations`: tile each teacher's per-day
preference over the week and add 1 for every position where the
preference is 0 and the schedule is 1. -/
def count_shift_preference_violations (d : List (List Int)) : Int :=
  (shift_preference.enum.map fun ip =>
    let preference := tile ip.2 (shifts_per_week / shift_per_day)
    let shifts := d.getD ip.1 []
    ((preference.zip shifts).map fun ps =>
      if ps.1 = 0 ∧ ps.2 = 1 then (1 : Int) else 0).sum).sum

/-- `get_cost`: `ValueError` on a length mismatch is modelled as `none`;
otherwise `hard_constraint_penalty * hard + soft`. -/
def get_cost (hard_constraint_penalty : Int) (schedule : List Int) : Option Int :=
  if schedule.length ≠ schedLength then none
  else
    let d := get_teacher_shifts schedule
    let consecutive_shift_violations := count_consecutive_shift_violations d
    let shifts_per_week_violations := (count_shifts_per_week_violations d).2
    let teachers_per_shift_violations := (count_teachers_per_shift_violations d).2
    let shift_preference_violations := count_shift_preference_violations d
    let hard := consecutive_shift_violations + teachers_per_shift_violations
      + shifts_per_week_violations
    some (hard_constraint_penalty * hard + shift_preference_violations)

/-- The all-zero roster of the declared length. -/
def zeroRoster : List Int := List.replicate schedLength 0

/-- A roster of the declared length whose first entry is `2`. -/
def twoRoster : List Int := 2 :: List.replicate (schedLength - 1) 0

/-- A roster of the declared length whose first entry is `-1`. -/
def negRoster : List Int := (-1) :: List.replicate (schedLength - 1) 0

/-- A single week's sequence with `max_shifts_per_week + 3 = 8` ones. -/
def overloadedWeek : List Int := List.replicate 8 1 ++ List.replicate 13 0

/-- A roster scheduling worker 0 only on day 0's evening slot, which
that worker's preference pattern marks undesired. -/
def undesiredRoster : List Int := 0 :: 1 :: List.replicate (schedLength - 2) 0

/-- The count, from the spec's words, of adjacent index pairs `(j, j+1)`
of a flat sequence whose entries are both `1`. -/
def adjacentOnesCount (l : List Int) : Int :=
  (((List.range (l.length - 1)).filter fun j =>
    decide (l.getD j 0 = 1 ∧ l.getD (j + 1) 0 = 1)).length : Int)

/-- The weekly-overload count of one worker, from the spec's words:
partition into the weekly windows, count the 1's of each window, and
add the excess over `max_shifts_per_week` when the count exceeds it. -/
def weeklyOverloadSpec (ts : List Int) : Int :=
  ((weeklyWindows ts).map fun w =>
    if (((w.filter fun x => decide (x = 1)).length : Int)) > max_shifts_per_week
    then ((w.filter fun x => decide (x = 1)).length : Int) - max_shifts_per_week
    else 0).sum

/-- The per-position capacity penalty applied by the source's loop body. -/
def capacityTerm (pos : Nat) (n : Int) : Int :=
  if n > shift_max.getD (pos % shift_per_day) 0 then
    n - shift_max.getD (pos % shift_per_day) 0
  else if n < shift_min.getD (pos % shift_per_day) 0 then
    shift_min.getD (pos % shift_per_day) 0 - n
  else 0

/-- The capacity violation count, from the spec's words: at each flat
position of the per-worker timeline, sum the worked-flags of all workers
(reading the flat roster at `worker * shifts_per_teacher + position`),
classify the position by `position mod shift_per_day`, and penalize the
excess over the slot's maximum or the shortfall under its minimum. -/
def capacityViolationSpec (s : List Int) : Int :=
  ((List.range shifts_per_teacher).map fun pos =>
    capacityTerm pos (((List.range teachers.length).map fun k =>
      s.getD (k * shifts_per_teacher + pos) 0).sum)).sum

/-- The preference violation count, from the spec's words: for each
worker, tile that worker's per-day preference pattern across the days of
the period (reading it at `position mod shift_per_day`) and add exactly
1 at every position where the preference is 0 and the roster schedules
the worker (reads the flat roster at
`worker * shifts_per_teacher + position`). -/
def preferenceViolationSpec (s : List Int) : Int :=
  ((List.range teachers.length).map fun i =>
    ((List.range shifts_per_teacher).map fun q =>
      if (shift_preference.getD i []).getD (q % shift_per_day) 0 = 0
          ∧ s.getD (i * shifts_per_teacher + q) 0 = 1
      then (1 : Int) else 0).sum).sum

/-- The summand of `count_shift_preference_violations` for one entry of
the enumerated preference table. -/
def prefG (d : List (List Int)) (i : Nat) (pat : List Int) : Int :=
  (((tile pat (shifts_per_week / shift_per_day)).zip (d.getD i [])).map fun ps =>
    if ps.1 = 0 ∧ ps.2 = 1 then (1 : Int) else 0).sum

section Helpers

set_option maxRecDepth 10000

lemma get_cost_eq (p : Int) (s : List Int) (h : s.length = schedLength) :
    get_cost p s =
      some (p * (count_consecutive_shift_violations (get_teacher_shifts s)
          + (count_teachers_per_shift_violations (get_teacher_shifts s)).2
          + (count_shifts_per_week_violations (get_teacher_shifts s)).2)
        + count_shift_preference_violations (get_teacher_shifts s)) := by
  simp [get_cost, h]

lemma zeroRoster_length : zeroRoster.length = schedLength := by
  simp [zeroRoster]

lemma consecutivePairs_eq : ∀ l : List Int, consecutivePairs l = adjacentOnesCount l
  | [] => by simp [consecutivePairs, adjacentOnesCount]
  | [_] => by simp [consecutivePairs, adjacentOnesCount]
  | a :: b :: t => by
    have ih := consecutivePairs_eq (b :: t)
    rw [consecutivePairs, ih, adjacentOnesCount, adjacentOnesCount]
    simp only [List.length_cons, Nat.add_sub_cancel]
    rw [List.range_succ_eq_map, List.filter_cons]
    simp only [List.getD_cons_zero, List.getD_cons_succ, Nat.succ_eq_add_one]
    rw [List.filter_map]
    simp only [Function.comp_def, List.getD_cons_succ, List.length_map]
    by_cases hab : a = 1 ∧ b = 1
    · simp [hab]
      ring
    · simp [hab]

lemma binary_sum_eq_count (w : List Int) (hb : ∀ x ∈ w, x = 0 ∨ x = 1) :
    w.sum = ((w.filter fun x => decide (x = 1)).length : Int) := by
  induction w with
  | nil => simp
  | cons a t ih =>
    have ha := hb a (by simp)
    have ht : ∀ x ∈ t, x = 0 ∨ x = 1 := fun x hx => hb x (by simp [hx])
    rcases ha with h0 | h1
    · simp [h0, List.filter_cons, ih ht]
    · simp [h1, List.filter_cons, ih ht]
      ring

lemma mem_of_mem_weeklyWindows {w ts : List Int} (hw : w ∈ weeklyWindows ts) :
    ∀ x ∈ w, x ∈ ts := by
  rcases List.mem_map.mp hw with ⟨k, _, rfl⟩
  exact fun x hx => List.mem_of_mem_drop (List.mem_of_mem_take hx)

lemma count_shifts_snd (d : List (List Int)) :
    (count_shifts_per_week_violations d).2 =
      ((d.flatMap fun ts => (weeklyWindows ts).map List.sum).map fun s =>
        if s > max_shifts_per_week then s - max_shifts_per_week else 0).sum := rfl

lemma weeklyOverloadSpec_aux :
    ∀ d : List (List Int), (∀ l ∈ d, ∀ x ∈ l, x = 0 ∨ x = 1) →
      (count_shifts_per_week_violations d).2 = (d.map weeklyOverloadSpec).sum
  | [], _ => rfl
  | a :: t, hbin => by
    have ha : ∀ x ∈ a, x = 0 ∨ x = 1 := hbin a (by simp)
    have ht : ∀ l ∈ t, ∀ x ∈ l, x = 0 ∨ x = 1 :=
      fun l hl => hbin l (List.mem_cons_of_mem _ hl)
    have ih := weeklyOverloadSpec_aux t ht
    rw [count_shifts_snd] at ih ⊢
    rw [List.flatMap_cons, List.map_append, List.sum_append, List.map_cons,
      List.sum_cons, ih]
    congr 1
    rw [List.map_map, weeklyOverloadSpec]
    refine congrArg List.sum (List.map_congr_left fun w hw => ?_)
    have hwb : ∀ x ∈ w, x = 0 ∨ x = 1 :=
      fun x hx => ha x (mem_of_mem_weeklyWindows hw x hx)
    simp only [Function.comp_def]
    rw [binary_sum_eq_count w hwb]

lemma getD_take_drop (s : List Int) (i p n : Nat) (hp : p < n) :
    ((s.drop i).take n).getD p 0 = s.getD (i + p) 0 := by
  rw [List.getD_eq_getElem?_getD, List.getD_eq_getElem?_getD,
    List.getElem?_take, if_pos hp, List.getElem?_drop]

lemma getD_map_range {α : Type} (f : Nat → α) {n p : Nat} (hp : p < n) (dflt : α) :
    ((List.range n).map f).getD p dflt = f p := by
  rw [List.getD_eq_getElem?_getD, List.getElem?_map, List.getElem?_range hp]
  rfl

lemma enumFrom_map_sum {α : Type} (G : Nat → α → Int) (dflt : α) :
    ∀ (l : List α) (k : Nat),
      ((List.enumFrom k l).map fun ip => G ip.1 ip.2).sum =
        ((List.range l.length).map fun i => G (k + i) (l.getD i dflt)).sum
  | [], _ => rfl
  | a :: t, k => by
    rw [List.enumFrom_cons, List.map_cons, List.sum_cons,
      enumFrom_map_sum G dflt t (k + 1), List.length_cons,
      List.range_succ_eq_map, List.map_cons, List.sum_cons]
    simp only [Nat.add_zero, List.getD_cons_zero, List.map_map]
    congr 1
    refine congrArg List.sum (List.map_congr_left fun i _ => ?_)
    simp only [Function.comp_def, Nat.succ_eq_add_one, List.getD_cons_succ]
    congr 1
    omega

lemma enum_map_sum {α : Type} (G : Nat → α → Int) (dflt : α) (l : List α) :
    (l.enum.map fun ip => G ip.1 ip.2).sum =
      ((List.range l.length).map fun i => G i (l.getD i dflt)).sum := by
  rw [show l.enum = List.enumFrom 0 l from rfl, enumFrom_map_sum G dflt l 0]
  simp

lemma length_slice (s : List Int) (h : s.length = schedLength) (k : Nat)
    (hk : k < teachers.length) :
    ((s.drop (k * shifts_per_teacher)).take shifts_per_teacher).length
      = shifts_per_teacher := by
  rw [List.length_take, List.length_drop, h]
  have h8 : teachers.length = 8 := rfl
  have h168 : schedLength = 168 := rfl
  have h21 : shifts_per_teacher = 21 := rfl
  rw [h168, h21] at *
  omega

lemma zipMinLen_gts (s : List Int) (h : s.length = schedLength) :
    zipMinLen (get_teacher_shifts s) = shifts_per_teacher := by
  have e : List.range teachers.length = [0, 1, 2, 3, 4, 5, 6, 7] := rfl
  rw [get_teacher_shifts, e]
  simp only [List.map_cons, List.map_nil, zipMinLen]
  rw [length_slice s h 0 (by decide), length_slice s h 1 (by decide),
    length_slice s h 2 (by decide), length_slice s h 3 (by decide),
    length_slice s h 4 (by decide), length_slice s h 5 (by decide),
    length_slice s h 6 (by decide), length_slice s h 7 (by decide)]
  simp

lemma total_per_shift_eq (s : List Int) (h : s.length = schedLength) :
    total_per_shift_list (get_teacher_shifts s) =
      (List.range shifts_per_teacher).map fun pos =>
        ((List.range teachers.length).map fun k =>
          s.getD (k * shifts_per_teacher + pos) 0).sum := by
  rw [total_per_shift_list, zipMinLen_gts s h]
  refine List.map_congr_left fun pos hpos => ?_
  have hp : pos < shifts_per_teacher := List.mem_range.mp hpos
  rw [get_teacher_shifts, List.map_map]
  refine congrArg List.sum (List.map_congr_left fun k _ => ?_)
  simp only [Function.comp_def]
  exact getD_take_drop s (k * shifts_per_teacher) pos shifts_per_teacher hp

lemma count_teachers_snd (d : List (List Int)) :
    (count_teachers_per_shift_violations d).2 =
      ((total_per_shift_list d).enum.map fun pn => capacityTerm pn.1 pn.2).sum := rfl

lemma count_pref_enum (d : List (List Int)) :
    count_shift_preference_violations d =
      (shift_preference.enum.map fun ip => prefG d ip.1 ip.2).sum := rfl

lemma tile_length (pat : List Int) (m : Nat) : (tile pat m).length = m * pat.length := by
  induction m with
  | zero => simp [tile]
  | succ m ih =>
    rw [tile, List.replicate_succ, List.flatten_cons, List.length_append]
    rw [tile] at ih
    rw [ih]
    ring

lemma tile_getD (pat : List Int) :
    ∀ (m q : Nat), q < m * pat.length →
      (tile pat m).getD q 0 = pat.getD (q % pat.length) 0
  | 0, q, hq => by
    rw [Nat.zero_mul] at hq
    omega
  | m + 1, q, hq => by
    rw [tile, List.replicate_succ, List.flatten_cons]
    by_cases hlt : q < pat.length
    · rw [List.getD_eq_getElem?_getD, List.getElem?_append, if_pos hlt,
        ← List.getD_eq_getElem?_getD, Nat.mod_eq_of_lt hlt]
    · push_neg at hlt
      rw [List.getD_eq_getElem?_getD, List.getElem?_append,
        if_neg (by omega), ← List.getD_eq_getElem?_getD]
      have hq' : q - pat.length < m * pat.length := by
        rw [Nat.sub_lt_iff_lt_add hlt]
        calc q < (m + 1) * pat.length := hq
          _ = pat.length + m * pat.length := by ring
      rw [show (List.replicate m pat).flatten = tile pat m from rfl,
        tile_getD pat m (q - pat.length) hq']
      congr 1
      exact (Nat.mod_eq_sub_mod hlt).symm

lemma zip_map_sum (f : Int × Int → Int) :
    ∀ (a b : List Int), a.length = b.length →
      ((a.zip b).map f).sum =
        ((List.range a.length).map fun q => f (a.getD q 0, b.getD q 0)).sum
  | [], [], _ => rfl
  | [], _ :: _, h => by simp at h
  | _ :: _, [], h => by simp at h
  | x :: xs, y :: ys, h => by
    have h' : xs.length = ys.length := by simpa using h
    rw [List.zip_cons_cons, List.map_cons, List.sum_cons, zip_map_sum f xs ys h',
      List.length_cons, List.range_succ_eq_map, List.map_cons, List.sum_cons]
    simp only [List.getD_cons_zero, List.map_map]
    congr 1

lemma flatten_slices (n : Nat) :
    ∀ (m : Nat) (l : List Int), l.length = m * n →
      ((List.range m).map fun k => (l.drop (k * n)).take n).flatten = l
  | 0, l, hl => by
    rw [Nat.zero_mul] at hl
    simp [List.eq_nil_of_length_eq_zero hl]
  | m + 1, l, hl => by
    rw [List.range_succ_eq_map, List.map_cons, List.flatten_cons, List.map_map]
    have htail : ((List.range m).map ((fun k => (l.drop (k * n)).take n) ∘ Nat.succ))
        = (List.range m).map fun k => ((l.drop n).drop (k * n)).take n := by
      refine List.map_congr_left fun k _ => ?_
      simp only [Function.comp_def, Nat.succ_eq_add_one]
      rw [List.drop_drop]
      congr 2
      ring
    have hlen : (l.drop n).length = m * n := by
      rw [List.length_drop, hl, Nat.succ_mul, Nat.add_sub_cancel]
    rw [htail, flatten_slices n m (l.drop n) hlen, Nat.zero_mul, List.drop_zero]
    exact List.take_append_drop n l

lemma consecutivePairs_nonneg : ∀ l : List Int, 0 ≤ consecutivePairs l
  | [] => le_refl 0
  | [_] => le_refl 0
  | a :: b :: t => by
    rw [consecutivePairs]
    have ht := consecutivePairs_nonneg (b :: t)
    have h2 : (0 : Int) ≤ if a = 1 ∧ b = 1 then 1 else 0 := by
      split <;> norm_num
    exact add_nonneg h2 ht

lemma count_consecutive_nonneg (d : List (List Int)) :
    0 ≤ count_consecutive_shift_violations d :=
  List.sum_nonneg fun x hx => by
    rcases List.mem_map.mp hx with ⟨l, _, rfl⟩
    exact consecutivePairs_nonneg l

lemma weekly_nonneg (d : List (List Int)) :
    0 ≤ (count_shifts_per_week_violations d).2 := by
  rw [count_shifts_snd]
  refine List.sum_nonneg fun x hx => ?_
  rcases List.mem_map.mp hx with ⟨v, _, rfl⟩
  split
  · omega
  · exact le_refl 0

lemma capacity_nonneg (d : List (List Int)) :
    0 ≤ (count_teachers_per_shift_violations d).2 := by
  rw [count_teachers_snd]
  refine List.sum_nonneg fun x hx => ?_
  rcases List.mem_map.mp hx with ⟨pn, _, rfl⟩
  rw [capacityTerm]
  split
  · omega
  · split
    · omega
    · exact le_refl 0

lemma pref_nonneg (d : List (List Int)) :
    0 ≤ count_shift_preference_violations d := by
  rw [count_pref_enum]
  refine List.sum_nonneg fun x hx => ?_
  rcases List.mem_map.mp hx with ⟨ip, _, rfl⟩
  rw [prefG]
  refine List.sum_nonneg fun y hy => ?_
  rcases List.mem_map.mp hy with ⟨ps, _, rfl⟩
  split <;> norm_num

end Helpers

section Claims

set_option maxRecDepth 10000

/-- C1: for every roster of the declared length, `get_cost` returns the
hard-constraint penalty times the sum of the three hard violation counts
(consecutive-shift, weekly-overload, capacity) plus the preference
violation count, and nothing else. -/
theorem get_cost_formula (p : Int) (s : List Int) (h : s.length = schedLength) :
    get_cost p s =
      some (p * (count_consecutive_shift_violations (get_teacher_shifts s)
          + (count_shifts_per_week_violations (get_teacher_shifts s)).2
          + (count_teachers_per_shift_violations (get_teacher_shifts s)).2)
        + count_shift_preference_violations (get_teacher_shifts s)) := by
  rw [get_cost_eq p s h]
  ring_nf

/-- Witness for C1 at the all-zero roster. -/
theorem get_cost_formula_witness :
    zeroRoster.length = schedLength ∧
    get_cost 10 zeroRoster =
      some (10 * (count_consecutive_shift_violations (get_teacher_shifts zeroRoster)
          + (count_shifts_per_week_violations (get_teacher_shifts zeroRoster)).2
          + (count_teachers_per_shift_violations (get_teacher_shifts zeroRoster)).2)
        + count_shift_preference_violations (get_teacher_shifts zeroRoster)) :=
  ⟨zeroRoster_length, get_cost_formula 10 zeroRoster zeroRoster_length⟩

/-- C2: the consecutive-shift violation count sums, over the workers'
flat sequences, the number of adjacent index pairs that are both 1
(day boundaries included, runs not deduplicated: a run of three 1's
contributes 2 and a run of two contributes 1). -/
theorem consecutive_shift_violations_spec :
    (∀ d : List (List Int),
      count_consecutive_shift_violations d = (d.map adjacentOnesCount).sum) ∧
    count_consecutive_shift_violations [[0, 1, 1, 1, 0]] = 2 ∧
    count_consecutive_shift_violations [[0, 1, 1, 0]] = 1 := by
  refine ⟨fun d => ?_, by decide, by decide⟩
  unfold count_consecutive_shift_violations
  exact congrArg List.sum (List.map_congr_left fun l _ => consecutivePairs_eq l)

/-- C3: for binary rosters, the weekly-overload count partitions each
worker's sequence into the non-overlapping weekly windows, counts the
1's per window, and adds the excess over the maximum for every window
above it (magnitude-proportional; windows at or below the maximum
contribute 0). -/
theorem shifts_per_week_violations_spec (d : List (List Int))
    (hbin : ∀ l ∈ d, ∀ x ∈ l, x = 0 ∨ x = 1) :
    (count_shifts_per_week_violations d).2 = (d.map weeklyOverloadSpec).sum :=
  weeklyOverloadSpec_aux d hbin

/-- Witness for C3: a worker scheduled `max + 3 = 8` times in the week
contributes exactly 3. -/
theorem shifts_per_week_violations_spec_witness :
    (∀ l ∈ [overloadedWeek], ∀ x ∈ l, x = 0 ∨ x = 1) ∧
    (count_shifts_per_week_violations [overloadedWeek]).2 =
      ([overloadedWeek].map weeklyOverloadSpec).sum ∧
    (count_shifts_per_week_violations [overloadedWeek]).2 = 3 := by
  refine ⟨by decide, shifts_per_week_violations_spec [overloadedWeek] (by decide), ?_⟩
  rw [shifts_per_week_violations_spec [overloadedWeek] (by decide)]
  decide

/-- C4: the capacity violation count sums, over every flat position of
the per-worker timeline, the worked-flags of all workers at that
position, classifies the position by `position mod shift_per_day`, and
adds the excess over the slot type's maximum or the shortfall under its
minimum (both directions, magnitude-proportional). -/
theorem teachers_per_shift_violations_spec (s : List Int) (h : s.length = schedLength) :
    (count_teachers_per_shift_violations (get_teacher_shifts s)).2 =
      capacityViolationSpec s := by
  rw [count_teachers_snd, enum_map_sum capacityTerm 0, total_per_shift_eq s h,
    capacityViolationSpec]
  simp only [List.length_map, List.length_range]
  refine congrArg List.sum (List.map_congr_left fun pos hpos => ?_)
  rw [getD_map_range _ (List.mem_range.mp hpos) 0]

/-- Witness for C4 at the all-zero roster. -/
theorem teachers_per_shift_violations_spec_witness :
    zeroRoster.length = schedLength ∧
    (count_teachers_per_shift_violations (get_teacher_shifts zeroRoster)).2 =
      capacityViolationSpec zeroRoster ∧
    (count_teachers_per_shift_violations (get_teacher_shifts zeroRoster)).2 = 35 := by
  refine ⟨zeroRoster_length,
    teachers_per_shift_violations_spec zeroRoster zeroRoster_length, by decide⟩

/-- C5: the preference violation count tiles each worker's fixed
per-day preference pattern across all days of the period and adds
exactly 1 for every position where the tiled preference is 0 and the
roster schedules the worker. -/
theorem shift_preference_violations_spec (s : List Int) (h : s.length = schedLength) :
    count_shift_preference_violations (get_teacher_shifts s) =
      preferenceViolationSpec s := by
  rw [count_pref_enum, enum_map_sum (prefG (get_teacher_shifts s)) [],
    preferenceViolationSpec,
    show shift_preference.length = teachers.length from rfl]
  refine congrArg List.sum (List.map_congr_left fun i hi => ?_)
  have hi8 : i < teachers.length := List.mem_range.mp hi
  have hpat : (shift_preference.getD i []).length = shift_per_day := by
    revert hi8
    revert i
    decide
  rw [prefG, show get_teacher_shifts s = (List.range teachers.length).map (fun k =>
      (s.drop (k * shifts_per_teacher)).take shifts_per_teacher) from rfl,
    getD_map_range _ hi8 []]
  have hlen1 : (tile (shift_preference.getD i [])
      (shifts_per_week / shift_per_day)).length = shifts_per_teacher := by
    rw [tile_length, hpat]
    rfl
  have hlen2 := length_slice s h i hi8
  rw [zip_map_sum _ _ _ (by rw [hlen1, hlen2]), hlen1]
  refine congrArg List.sum (List.map_congr_left fun q hq => ?_)
  have hq21 : q < shifts_per_teacher := List.mem_range.mp hq
  rw [getD_take_drop s (i * shifts_per_teacher) q shifts_per_teacher hq21,
    tile_getD _ _ _ (by rw [hpat]; exact hq21), hpat]

/-- Witness for C5: a roster scheduling worker 0 on the undesired
evening slot of day 0 is penalized by exactly 1. -/
theorem shift_preference_violations_spec_witness :
    undesiredRoster.length = schedLength ∧
    count_shift_preference_violations (get_teacher_shifts undesiredRoster) =
      preferenceViolationSpec undesiredRoster ∧
    count_shift_preference_violations (get_teacher_shifts undesiredRoster) = 1 := by
  refine ⟨by decide, shift_preference_violations_spec undesiredRoster (by decide), by decide⟩

/-- C6: `get_cost` fails (returns `none`, modelling the raised
`ValueError`) exactly when the roster's length differs from the declared
schedule length. -/
theorem get_cost_none_iff (p : Int) (s : List Int) :
    get_cost p s = none ↔ s.length ≠ schedLength := by
  by_cases h : s.length = schedLength <;> simp [get_cost, h]

/-- C7: on the all-zero roster the consecutive and preference counts are
0 and the capacity count is the sum, over all slot-type instances, of
that slot type's minimum headcount. -/
theorem zeroRoster_violation_counts :
    count_consecutive_shift_violations (get_teacher_shifts zeroRoster) = 0 ∧
    count_shift_preference_violations (get_teacher_shifts zeroRoster) = 0 ∧
    (count_teachers_per_shift_violations (get_teacher_shifts zeroRoster)).2 =
      ((List.range shifts_per_week).map fun pos =>
        shift_min.getD (pos % shift_per_day) 0).sum := by
  decide

/-- C8: the declared length is workers times days-in-period times
shift-slots-per-day, and decoding slices the roster contiguously in
worker-major order: worker `k` gets positions
`[k * D * S, (k + 1) * D * S)`, and concatenating the per-worker slices
in worker order reconstructs the roster. -/
theorem length_and_decode (s : List Int) (h : s.length = schedLength) :
    schedLength = teachers.length * ((7 * weeks) * shift_per_day) ∧
    (get_teacher_shifts s).flatten = s ∧
    ∀ k, k < teachers.length →
      (get_teacher_shifts s).getD k [] =
        (s.drop (k * ((7 * weeks) * shift_per_day))).take
          ((7 * weeks) * shift_per_day) := by
  have e : (7 * weeks) * shift_per_day = shifts_per_teacher := by decide
  rw [e]
  refine ⟨by decide, ?_, ?_⟩
  · rw [get_teacher_shifts]
    exact flatten_slices shifts_per_teacher teachers.length s (by rw [h]; decide)
  · intro k hk
    rw [get_teacher_shifts, getD_map_range _ hk []]

/-- Witness for C8 at the all-zero roster. -/
theorem length_and_decode_witness :
    zeroRoster.length = schedLength ∧
    (schedLength = teachers.length * ((7 * weeks) * shift_per_day) ∧
      (get_teacher_shifts zeroRoster).flatten = zeroRoster ∧
      ∀ k, k < teachers.length →
        (get_teacher_shifts zeroRoster).getD k [] =
          (zeroRoster.drop (k * ((7 * weeks) * shift_per_day))).take
            ((7 * weeks) * shift_per_day)) :=
  ⟨zeroRoster_length, length_and_decode zeroRoster zeroRoster_length⟩

/-- C9: for a non-negative penalty weight (the repository configures 10)
and a binary roster of the declared length, `get_cost` returns a
non-negative value, and the value depends only on the roster's content. -/
theorem get_cost_nonneg_and_content (p : Int) (s t : List Int)
    (hp : 0 ≤ p) (h : s.length = schedLength)
    (_hbin : ∀ x ∈ s, x = 0 ∨ x = 1) (hst : s = t) :
    (∃ c, get_cost p s = some c ∧ 0 ≤ c) ∧ get_cost p s = get_cost p t := by
  refine ⟨⟨_, get_cost_eq p s h, ?_⟩, by rw [hst]⟩
  have h1 := count_consecutive_nonneg (get_teacher_shifts s)
  have h2 := capacity_nonneg (get_teacher_shifts s)
  have h3 := weekly_nonneg (get_teacher_shifts s)
  have h4 := pref_nonneg (get_teacher_shifts s)
  have h5 : 0 ≤ p * (count_consecutive_shift_violations (get_teacher_shifts s)
      + (count_teachers_per_shift_violations (get_teacher_shifts s)).2
      + (count_shifts_per_week_violations (get_teacher_shifts s)).2) :=
    mul_nonneg hp (by linarith)
  linarith

/-- Witness for C9 at the all-zero roster and penalty 10. -/
theorem get_cost_nonneg_and_content_witness :
    (0 : Int) ≤ 10 ∧ zeroRoster.length = schedLength ∧
    (∀ x ∈ zeroRoster, x = 0 ∨ x = 1) ∧
    ((∃ c, get_cost 10 zeroRoster = some c ∧ 0 ≤ c) ∧
      get_cost 10 zeroRoster = get_cost 10 zeroRoster) :=
  ⟨by norm_num, zeroRoster_length,
    fun x hx => Or.inl (List.eq_of_mem_replicate hx),
    get_cost_nonneg_and_content 10 zeroRoster zeroRoster (by norm_num)
      zeroRoster_length (fun x hx => Or.inl (List.eq_of_mem_replicate hx)) rfl⟩

/-- C10: `get_cost` validates only the length: rosters of the declared
length holding a 2 or a -1 are accepted, and those entries flow
unclamped into the weekly sums and the per-position headcounts. -/
theorem non_binary_entries_flow :
    (get_cost 10 twoRoster).isSome = true ∧
    (count_shifts_per_week_violations (get_teacher_shifts twoRoster)).1.getD 0 0 = 2 ∧
    (count_teachers_per_shift_violations (get_teacher_shifts twoRoster)).1.getD 0 0 = 2 ∧
    (get_cost 10 negRoster).isSome = true ∧
    (count_shifts_per_week_violations (get_teacher_shifts negRoster)).1.getD 0 0 = -1 ∧
    (count_teachers_per_shift_violations (get_teacher_shifts negRoster)).1.getD 0 0 = -1 := by
  decide

end Claims

end TSP
